import Mathlib

/-!
Verification of the point-grouping, scale, projection-state and draw logic of the
`30DayMapChallenge-29_Raster` repository.

The repository's core (src/src/tabs/MapTab.vue, two near-duplicate component
variants A and B, plus the Pinia data store) is shallowly embedded below:

* numbers are modelled as `ℚ` (the claims under check do not concern
  floating-point rounding);
* the JS `Map` used for grouping is modelled as an insertion-ordered
  association list of `Group`s, updated exactly as the source's
  `groups.has / groups.set / points.push` sequence does;
* `Array.prototype.sort` with the comparator `(a, b) => a.lon - b.lon`
  (a stable ascending sort in ECMAScript) is modelled by a stable
  insertion sort, whose input/output behaviour coincides with any stable
  ascending sort;
* `d3.scaleLinear` is translated from d3-scale's `continuous` transformer
  (`normalize` returns the constant 1/2 on a degenerate domain) and
  d3-interpolate's `interpolateNumber`;
* the azimuthal-equidistant projection itself stays abstract: it enters the
  statements as an arbitrary function `ℚ × ℚ → Option (ℚ × ℚ)` (`none`
  models d3 returning `null` for a clipped point);
* exceptions (the `TypeError` thrown when a feature misses its geometry,
  caught by the surrounding `try/catch`) are modelled with `Option`.
-/

namespace MapRaster

/-- Draw direction of the component: `'y'` (group by latitude rows) or
`'x'` (group by longitude columns); `drawDirection` in MapTab.vue. -/
inductive DrawDirection where
  | x : DrawDirection
  | y : DrawDirection
deriving DecidableEq

/-- A point stored in a group: the `{ lon, lat, value }` records pushed by
`drawPointsMap`'s grouping loop (MapTab.vue lines 212/228 variant A,
1152/1168 variant B; variant B additionally copies `properties`, which only
feeds tooltips and is irrelevant to every claim). -/
structure GPoint where
  lon : ℚ
  lat : ℚ
  value : ℚ
deriving DecidableEq

/-- A well-formed loaded point feature after coordinate and value access:
`feature.geometry.coordinates[0/1]`, `feature.properties?.value || 0` and the
optional `properties.grid_x` / `properties.grid_y` indices. -/
structure WFeature where
  lon : ℚ
  lat : ℚ
  value : ℚ
  grid_x : Option ℤ
  grid_y : Option ℤ
deriving DecidableEq

/-- The point record a feature contributes to its group. -/
def pointOf (f : WFeature) : GPoint :=
  ⟨f.lon, f.lat, f.value⟩

/-- JS `Math.round`: round half toward positive infinity. -/
def jsRound (q : ℚ) : ℤ :=
  ⌊q + 1 / 2⌋

/-- `Math.round(coord * 100) / 100`: the 2-decimal rounding used as the
fallback grouping key (MapTab.vue lines 199/215 variant A, 1139/1155 B). -/
def round2 (q : ℚ) : ℚ :=
  (jsRound (q * 100) : ℚ) / 100

/-- A grouping key of the JS `Map`: either the string `grid_${gridY}` (an
integer grid index) or the rounded coordinate number.  The two shapes can
never be equal, exactly as a string key and a number key never collide in a
JS `Map`. -/
inductive GroupKey where
  | grid : ℤ → GroupKey
  | coordK : ℚ → GroupKey
deriving DecidableEq

/-- The grouping key of a feature (MapTab.vue lines 199/215 variant A,
1139/1155 variant B): the grid index when present, else the coordinate
rounded to 2 decimals; latitude for direction `'y'`, longitude for `'x'`. -/
def featureKey (dir : DrawDirection) (f : WFeature) : GroupKey :=
  match dir with
  | .y =>
    match f.grid_y with
    | some n => .grid n
    | none => .coordK (round2 f.lat)
  | .x =>
    match f.grid_x with
    | some n => .grid n
    | none => .coordK (round2 f.lon)

/-- One entry of the `groups` map (MapTab.vue lines 202-208/218-224 variant A,
1142-1148/1158-1164 variant B). -/
structure Group where
  key : GroupKey
  coord : ℚ
  gridCoord : Option ℤ
  points : List GPoint
  isYAxis : Bool
deriving DecidableEq

/-- The fresh group created for a feature whose key is not yet present:
`coord` and `gridCoord` are taken from that first feature, and the feature's
point is pushed immediately after creation. -/
def mkGroup (dir : DrawDirection) (f : WFeature) : Group :=
  match dir with
  | .y => ⟨featureKey .y f, f.lat, f.grid_y, [pointOf f], true⟩
  | .x => ⟨featureKey .x f, f.lon, f.grid_x, [pointOf f], false⟩

/-- One step of the grouping `forEach`: if a group with the feature's key
exists (the JS `Map` holds at most one entry per key, so the first match is
the only one), push the feature's point at its end, otherwise append a new
group at the end of the insertion order. -/
def insertFeature (dir : DrawDirection) (f : WFeature) : List Group → List Group
  | [] => [mkGroup dir f]
  | g :: gs =>
    if g.key = featureKey dir f then
      { g with points := g.points ++ [pointOf f] } :: gs
    else
      g :: insertFeature dir f gs

/-- The full grouping pass over `features` (MapTab.vue lines 190-230 variant A,
1130-1170 variant B): a left fold of `insertFeature` starting from an empty
map. -/
def buildGroups (dir : DrawDirection) (fs : List WFeature) : List Group :=
  fs.foldl (fun gs f => insertFeature dir f gs) []

/-- The ascending comparison used by the per-group sort: by longitude in
row (`'y'`) mode, by latitude in column (`'x'`) mode (MapTab.vue lines
245-252 variant A, 1176-1183 variant B). -/
def crossLE (isY : Bool) (a b : GPoint) : Bool :=
  if isY then decide (a.lon ≤ b.lon) else decide (a.lat ≤ b.lat)

/-- Stable insertion of one element into a sorted list: the element goes in
front of the first entry it compares `≤` to. -/
def stableIns (le : GPoint → GPoint → Bool) (a : GPoint) : List GPoint → List GPoint
  | [] => [a]
  | b :: l => if le a b then a :: b :: l else b :: stableIns le a l

/-- Stable ascending sort.  ECMAScript's `Array.prototype.sort` is required
to be stable, and all stable ascending sorts with a consistent comparator
compute the same output list, so this models
`points.sort((a, b) => a.lon - b.lon)` exactly. -/
def stableSort (le : GPoint → GPoint → Bool) : List GPoint → List GPoint
  | [] => []
  | a :: l => stableIns le a (stableSort le l)

/-- `sortedPoints` of a group. -/
def sortPts (isY : Bool) (pts : List GPoint) : List GPoint :=
  stableSort (crossLE isY) pts

/-- `sortedPoints.reduce((sum, p) => sum + p.value, 0)`. -/
def listSum (l : List ℚ) : ℚ :=
  l.foldl (· + ·) 0

/-- `Math.max(...)` over a list of values; every group is non-empty, so the
empty case (JS `-Infinity`) never occurs and is given an arbitrary value. -/
def jsMaxList : List ℚ → ℚ
  | [] => 0
  | h :: t => t.foldl max h

/-- One polyline of variant A's `lineData` (MapTab.vue lines 243-271); its
`closedPoints` equal `points` ("不閉合頭尾" — the head and tail are not
closed), so they are not stored separately. -/
structure LineA where
  coord : ℚ
  gridCoord : Option ℤ
  isYAxis : Bool
  points : List GPoint
  avgValue : ℚ
  maxValue : ℚ
deriving DecidableEq

/-- Build variant A's line record from a group: sort by the cross axis, then
average and maximum of the values (MapTab.vue lines 243-271). -/
def mkLineA (g : Group) : LineA :=
  let sp := sortPts g.isYAxis g.points
  { coord := g.coord
    gridCoord := g.gridCoord
    isYAxis := g.isYAxis
    points := sp
    avgValue := listSum (sp.map (·.value)) / (sp.length : ℚ)
    maxValue := jsMaxList (sp.map (·.value)) }

/-- Variant A's filter on groups (MapTab.vue lines 235-242): a group with a
grid coordinate is drawn only when that coordinate is even; groups without a
grid coordinate are kept. -/
def evenGroup (g : Group) : Bool :=
  match g.gridCoord with
  | some n => n % 2 == 0
  | none => true

/-- Variant A's drawn `lineData` (MapTab.vue lines 234-271): built groups,
filtered to even grid coordinates, then converted to line records. -/
def lineDataA (dir : DrawDirection) (fs : List WFeature) : List LineA :=
  ((buildGroups dir fs).filter evenGroup).map mkLineA

/-- One polyline of variant B's `lineData` (MapTab.vue lines 1174-1269), with
its `closedPoints` (synthetic baseline endpoints around the data points). -/
structure LineB where
  coord : ℚ
  gridCoord : Option ℤ
  isYAxis : Bool
  points : List GPoint
  closedPoints : List GPoint
  avgValue : ℚ
  maxValue : ℚ
deriving DecidableEq

/-- Variant B's `closedPoints` construction (MapTab.vue lines 1191-1258):
for a non-empty sorted point list, prepend and append a baseline point of
value 0, offset along the cross axis from the first/last real point by the
mean spacing `(last - first) / (n - 1)` (or the fallback `0.01` when the
group has fewer than two points); the other coordinate of a baseline point
is the group's representative `coord`. -/
def closedOf (isY : Bool) (coord : ℚ) (sp : List GPoint) : List GPoint :=
  match sp.head?, sp.getLast? with
  | some first, some last =>
    if isY then
      let lonStep : ℚ :=
        if 1 < sp.length then (last.lon - first.lon) / ((sp.length : ℚ) - 1) else 1 / 100
      ⟨first.lon - lonStep, coord, 0⟩ :: sp ++ [⟨last.lon + lonStep, coord, 0⟩]
    else
      let latStep : ℚ :=
        if 1 < sp.length then (last.lat - first.lat) / ((sp.length : ℚ) - 1) else 1 / 100
      ⟨coord, first.lat - latStep, 0⟩ :: sp ++ [⟨coord, last.lat + latStep, 0⟩]
  | _, _ => []

/-- Build variant B's line record from a group (MapTab.vue lines 1174-1269). -/
def mkLineB (g : Group) : LineB :=
  let sp := sortPts g.isYAxis g.points
  { coord := g.coord
    gridCoord := g.gridCoord
    isYAxis := g.isYAxis
    points := sp
    closedPoints := closedOf g.isYAxis g.coord sp
    avgValue := listSum (sp.map (·.value)) / (sp.length : ℚ)
    maxValue := jsMaxList (sp.map (·.value)) }

/-- Variant B's drawn `lineData` (MapTab.vue line 1174): all built groups are
drawn ("畫所有線，不過濾奇數" — no odd-grid filtering). -/
def lineDataB (dir : DrawDirection) (fs : List WFeature) : List LineB :=
  (buildGroups dir fs).map mkLineB

/-! ### d3 scales

Translated from d3-scale's `continuous` transformer and d3-interpolate's
`interpolateNumber`, the code that `d3.scaleLinear().domain(..).range(..)`
executes on a numeric argument. -/

/-- d3-scale `normalize(a, b)`: `(x - a) / (b - a)` for a non-degenerate
domain, and the constant `0.5` when `b - a` is zero (ℚ has no NaN, so the
NaN branch of the source cannot fire). -/
def d3Normalize (a b : ℚ) (x : ℚ) : ℚ :=
  if b - a ≠ 0 then (x - a) / (b - a) else 1 / 2

/-- d3-interpolate `interpolateNumber(a, b)`: `a * (1 - t) + b * t`. -/
def d3InterpolateNumber (a b : ℚ) (t : ℚ) : ℚ :=
  a * (1 - t) + b * t

/-- d3-scale `bimap` for a two-element domain and range: normalize within
the domain, interpolate within the range (domain reversed when
descending). -/
def d3ScaleLinear (d0 d1 r0 r1 : ℚ) (x : ℚ) : ℚ :=
  if d1 < d0 then d3InterpolateNumber r1 r0 (d3Normalize d1 d0 x)
  else d3InterpolateNumber r0 r1 (d3Normalize d0 d1 x)

/-- The component's height scale:
`d3.scaleLinear().domain([minValue, maxValue]).range([0, maxHeightOffset])`
(MapTab.vue lines 182-185 variant A, 1122-1125 variant B). -/
def heightScale (minV maxV maxHeightOffset x : ℚ) : ℚ :=
  d3ScaleLinear minV maxV 0 maxHeightOffset x

/-! ### Line generators and point accessors

`d3.line().x(..).y(..)` evaluates its `x` and `y` accessors once per input
point; the curve factory only interpolates between the accessor results and
neither drops nor adds sample points.  The drawn path of a group is
therefore modelled as the list of accessor-result pairs.  The projection is
any function `ℚ × ℚ → Option (ℚ × ℚ)`; `none` models d3 returning `null`. -/

/-- A forward projection, kept abstract. -/
def Proj : Type :=
  ℚ × ℚ → Option (ℚ × ℚ)

/-- Variant A's draw-pass `x` accessor (MapTab.vue lines 286-295): `0` when
the projection returns `null`, else the projected x, shifted right by the
height offset in `'x'` mode. -/
def xAccA (proj : Proj) (dir : DrawDirection) (hs : ℚ → ℚ) (d : GPoint) : ℚ :=
  match proj (d.lon, d.lat) with
  | none => 0
  | some c => if dir = .x then c.1 + hs d.value else c.1

/-- Variant A's draw-pass `y` accessor (MapTab.vue lines 296-305): `0` when
the projection returns `null`, else the projected y, shifted up by the
height offset in `'y'` mode. -/
def yAccA (proj : Proj) (dir : DrawDirection) (hs : ℚ → ℚ) (d : GPoint) : ℚ :=
  match proj (d.lon, d.lat) with
  | none => 0
  | some c => if dir = .y then c.2 - hs d.value else c.2

/-- The screen path variant A's line generator produces for a point list. -/
def pathA (proj : Proj) (dir : DrawDirection) (hs : ℚ → ℚ) (pts : List GPoint) :
    List (ℚ × ℚ) :=
  pts.map (fun d => (xAccA proj dir hs d, yAccA proj dir hs d))

/-- Variant B's draw-pass `x` accessor (MapTab.vue lines 1284-1292): `0` on a
`null` projection, else shifted left by the height offset in `'x'` mode. -/
def xAccBdraw (proj : Proj) (dir : DrawDirection) (hs : ℚ → ℚ) (d : GPoint) : ℚ :=
  match proj (d.lon, d.lat) with
  | none => 0
  | some c => if dir = .x then c.1 - hs d.value else c.1

/-- Variant B's draw-pass `y` accessor (MapTab.vue lines 1293-1301): `0` on a
`null` projection, else shifted up by the height offset in `'y'` mode. -/
def yAccBdraw (proj : Proj) (dir : DrawDirection) (hs : ℚ → ℚ) (d : GPoint) : ℚ :=
  match proj (d.lon, d.lat) with
  | none => 0
  | some c => if dir = .y then c.2 - hs d.value else c.2

/-- Variant B's reflow `x` accessor (`updateLinePaths`, MapTab.vue lines
1642-1647): never offset, whatever the draw direction (the height scale is
in scope there but unused by this accessor). -/
def xAccBreflow (proj : Proj) (_hs : ℚ → ℚ) (d : GPoint) : ℚ :=
  match proj (d.lon, d.lat) with
  | none => 0
  | some c => c.1

/-- Variant B's reflow `y` accessor (`updateLinePaths`, MapTab.vue lines
1648-1653): always shifted up by the height offset, whatever the draw
direction. -/
def yAccBreflow (proj : Proj) (hs : ℚ → ℚ) (d : GPoint) : ℚ :=
  match proj (d.lon, d.lat) with
  | none => 0
  | some c => c.2 - hs d.value

/-- The screen paths of variant B's full draw pass over already-built lines
(each line drawn through its `closedPoints`, MapTab.vue line 1328). -/
def drawPathsB (proj : Proj) (dir : DrawDirection) (hs : ℚ → ℚ) (lines : List LineB) :
    List (List (ℚ × ℚ)) :=
  lines.map (fun l =>
    l.closedPoints.map (fun d => (xAccBdraw proj dir hs d, yAccBdraw proj dir hs d)))

/-- The screen paths of variant B's reflow pass (`updateLinePaths`, MapTab.vue
lines 1656-1677).  It is a function of the already-built lines and the
current projection only: by its very type it cannot re-run feature
grouping. -/
def reflowPathsB (proj : Proj) (hs : ℚ → ℚ) (lines : List LineB) :
    List (List (ℚ × ℚ)) :=
  lines.map (fun l =>
    l.closedPoints.map (fun d => (xAccBreflow proj hs d, yAccBreflow proj hs d)))

/-! ### Projection state and resize -/

/-- The mutable projection parameters (`projection.rotate/scale/translate/
clipAngle`, MapTab.vue lines 106-111). -/
structure ProjectionState where
  rotateLon : ℚ
  rotateLat : ℚ
  scale : ℚ
  translateX : ℚ
  translateY : ℚ
  clipAngle : ℚ
deriving DecidableEq

/-- The scale recomputed from the container size:
`min(width - 2 * 32, height - 2 * 32) / 0.08` (MapTab.vue lines 672-676
variant A, 1893-1897 variant B). -/
def resizeScale (width height : ℚ) : ℚ :=
  min (width - 64) (height - 64) / (8 / 100)

/-- `invalidateSize` (MapTab.vue lines 662-684 variant A, 1883-1905 B): set
the translate to the container centre and the scale to `resizeScale`; the
rotation and clip angle are untouched and the previous scale is never
read. -/
def invalidateSize (width height : ℚ) (st : ProjectionState) : ProjectionState :=
  { st with
    scale := resizeScale width height
    translateX := width / 2
    translateY := height / 2 }

/-! ### Raw features and the guarded draw pass (variant A) -/

/-- A raw loaded feature before field access: `geometry = none` models a
missing `geometry`/`coordinates` (reading it throws a `TypeError`),
`value = none` a missing `properties`/`properties.value` (reading it yields
`undefined`, defaulted to `0` by `|| 0`). -/
structure RawFeature where
  geometry : Option (ℚ × ℚ)
  value : Option ℚ
  grid_x : Option ℤ
  grid_y : Option ℤ
deriving DecidableEq

/-- Field access for one feature (MapTab.vue lines 191-195): `none` when the
feature has no geometry, in which case the JS code throws. -/
def toWFeature (f : RawFeature) : Option WFeature :=
  match f.geometry with
  | none => none
  | some c => some ⟨c.1, c.2, f.value.getD 0, f.grid_x, f.grid_y⟩

/-- Access all features in order, stopping at the first missing geometry
(where the grouping `forEach` throws). -/
def extractAll : List RawFeature → Option (List WFeature)
  | [] => some []
  | f :: fs =>
    match toWFeature f, extractAll fs with
    | some w, some ws => some (w :: ws)
    | _, _ => none

/-- Variant A's `drawPointsMap` as far as the drawn line data is observable
(MapTab.vue lines 150-551): an empty collection returns early drawing
nothing; a feature without geometry makes the grouping loop throw, the
surrounding `catch` (line 548) swallows the exception and the whole pass
draws nothing (`none`); otherwise the filtered, sorted line data is drawn. -/
def drawPassA (dir : DrawDirection) (fs : List RawFeature) : Option (List LineA) :=
  if fs.isEmpty then some []
  else
    match extractAll fs with
    | none => none
    | some ws => some (lineDataA dir ws)

/-! ### The data store (src/unnamed/part_001) -/

/-- Character membership in the set JS `String.prototype.trim` removes. -/
def isJsSpace (c : Char) : Bool :=
  c == ' ' || c == '\t' || c == '\n' || c == '\r' ||
    c == '\x0b' || c == '\x0c' || c == '\u00A0' || c == '\uFEFF'

/-- JS `trim`: drop whitespace from both ends. -/
def jsTrim (s : List Char) : List Char :=
  ((s.dropWhile isJsSpace).reverse.dropWhile isJsSpace).reverse

/-- Does `pre` start `l`? -/
def startsWithChars : List Char → List Char → Bool
  | [], _ => true
  | _ :: _, [] => false
  | a :: pre, b :: l => a == b && startsWithChars pre l

/-- JS `hay.includes(needle)`: does `needle` occur contiguously in `hay`?
The empty needle is contained in every string. -/
def containsSub : List Char → List Char → Bool
  | [], needle => needle.isEmpty
  | b :: hay, needle => startsWithChars needle (b :: hay) || containsSub hay needle

/-- The visited-country list of the data store (src/unnamed/part_001 lines
25-64). -/
def visitedCountries : List String :=
  ["Australia", "Austria", "Belgium", "Brunei", "China", "Czechia", "Denmark",
   "Estonia", "Finland", "France", "Germany", "Greece", "Greenland", "Hungary",
   "Iceland", "Italy", "Japan", "Laos", "Luxembourg", "Malaysia", "Mexico",
   "Mongolia", "Netherlands", "North Korea", "Norway", "Philippines", "Poland",
   "Qatar", "Singapore", "Slovakia", "South Korea", "Spain", "Sweden",
   "Switzerland", "Thailand", "United Kingdom", "United States of America",
   "Vietnam"]

/-- `isCountryVisited` (src/unnamed/part_001 lines 73-83): `false` for a
missing (`none`, modelling `null`/`undefined`) or empty name (both falsy in
JS); otherwise trim the name and report whether some visited entry equals
it, is contained in it, or contains it. -/
def isCountryVisited (name : Option String) : Bool :=
  match name with
  | none => false
  | some s =>
    if s.toList.isEmpty then false
    else
      let n := jsTrim s.toList
      visitedCountries.any (fun v =>
        n == v.toList || containsSub n v.toList || containsSub v.toList n)

/-! ### Derived notions and concrete data used by the verification -/

/-- All points of all groups, in group order. -/
def flatPoints (gs : List Group) : List GPoint :=
  gs.flatMap (·.points)

/-- As `flatPoints`, but through each group's sorted point list. -/
def sortedFlat (gs : List Group) : List GPoint :=
  gs.flatMap (fun g => sortPts g.isYAxis g.points)

/-- The keys of the groups, in insertion order. -/
def groupKeys (gs : List Group) : List GroupKey :=
  gs.map (·.key)

/-- The points of the (under key-uniqueness unique) group carrying key `k`. -/
def pointsOfKey (k : GroupKey) (gs : List Group) : List GPoint :=
  (gs.filter (fun g => decide (g.key = k))).flatMap (·.points)

/-- The group a feature of the collection lands in: the unique entry of the
built group list that carries the feature's key. -/
def groupFor (dir : DrawDirection) (fs : List WFeature) (f : WFeature) : Option Group :=
  (buildGroups dir fs).find? (fun g => decide (g.key = featureKey dir f))

/-- The key-agreement relation claimed for the grouping: equal grid indices
when both features carry one (for the axis of the draw direction), equal
2-decimal rounded coordinates when neither does, and never across the two
cases. -/
def keyAgree (dir : DrawDirection) (f1 f2 : WFeature) : Prop :=
  match dir with
  | .y =>
    match f1.grid_y, f2.grid_y with
    | some a, some b => a = b
    | none, none => round2 f1.lat = round2 f2.lat
    | _, _ => False
  | .x =>
    match f1.grid_x, f2.grid_x with
    | some a, some b => a = b
    | none, none => round2 f1.lon = round2 f2.lon
    | _, _ => False

/-- A projection that clips every point (returns `null` everywhere). -/
def projNone : Proj :=
  fun _ => none

/-- A projection that never clips; the identity on coordinates is enough for
the statements below. -/
def projIdent : Proj :=
  fun p => some p

/-- The spec's grouping scenario: 4 points at `grid_y = 0` with longitudes
10, 20, 30, 40 and values 1, 2, 3, 4. -/
def scenarioFs : List WFeature :=
  [⟨10, 0, 1, none, some 0⟩, ⟨20, 0, 2, none, some 0⟩,
   ⟨30, 0, 3, none, some 0⟩, ⟨40, 0, 4, none, some 0⟩]

/-- A one-feature collection whose only feature sits on the odd grid row 1. -/
def oddRowFs : List WFeature :=
  [⟨10, 0, 1, none, some 1⟩]

/-- Two features on the same grid row 0, used to exercise the grouping key
theorem. -/
def twoRowFs : List WFeature :=
  [⟨10, 5, 1, none, some 0⟩, ⟨20, 5, 2, none, some 0⟩]

/-- A single-point feature, used to exercise the baseline-endpoint theorem
in its fallback branch. -/
def singleF : WFeature :=
  ⟨10, 0, 7, none, some 0⟩

/-- The group the scenario collection builds: key `grid_0`, representative
latitude 0, all four points in load order. -/
def scenarioGroup : Group :=
  ⟨.grid 0, 0, some 0,
   [⟨10, 0, 1⟩, ⟨20, 0, 2⟩, ⟨30, 0, 3⟩, ⟨40, 0, 4⟩], true⟩

/-- A well-formed raw feature. -/
def rawGood : RawFeature :=
  ⟨some (10, 0), some 5, none, some 0⟩

/-- A malformed raw feature: its geometry is missing, so accessing
`feature.geometry.coordinates` throws. -/
def rawBad : RawFeature :=
  ⟨none, some 1, none, some 0⟩

/-- A raw feature with geometry but without a value. -/
def rawNoValue : RawFeature :=
  ⟨some (10, 0), none, none, some 0⟩

/-! ### Helper lemmas: the stable sort -/

theorem stableIns_perm (le : GPoint → GPoint → Bool) (a : GPoint) :
    ∀ l : List GPoint, List.Perm (stableIns le a l) (a :: l) := by
  intro l
  induction l with
  | nil => simp [stableIns]
  | cons b t ih =>
    cases hle : le a b with
    | true => simp [stableIns, hle]
    | false =>
      simp only [stableIns, hle, Bool.false_eq_true, if_false]
      exact (ih.cons b).trans (List.Perm.swap a b t)

theorem stableSort_perm (le : GPoint → GPoint → Bool) :
    ∀ l : List GPoint, List.Perm (stableSort le l) l := by
  intro l
  induction l with
  | nil => simp [stableSort]
  | cons a t ih =>
    rw [stableSort]
    exact (stableIns_perm le a _).trans (ih.cons a)

theorem sortPts_perm (isY : Bool) (pts : List GPoint) :
    List.Perm (sortPts isY pts) pts :=
  stableSort_perm (crossLE isY) pts

theorem pairwise_stableIns (le : GPoint → GPoint → Bool)
    (htr : ∀ x y z, le x y = true → le y z = true → le x z = true)
    (hto : ∀ x y, le x y = true ∨ le y x = true) (a : GPoint) :
    ∀ l : List GPoint, l.Pairwise (fun x y => le x y = true) →
      (stableIns le a l).Pairwise (fun x y => le x y = true) := by
  intro l
  induction l with
  | nil =>
    intro _
    simp [stableIns]
  | cons b t ih =>
    intro hp
    obtain ⟨hb, ht⟩ := List.pairwise_cons.mp hp
    cases hle : le a b with
    | true =>
      simp only [stableIns, hle, if_true]
      refine List.pairwise_cons.mpr ⟨?_, hp⟩
      intro c hc
      rcases List.mem_cons.mp hc with rfl | hc'
      · exact hle
      · exact htr a b c hle (hb c hc')
    | false =>
      simp only [stableIns, hle, Bool.false_eq_true, if_false]
      refine List.pairwise_cons.mpr ⟨?_, ih ht⟩
      intro c hc
      rcases List.mem_cons.mp ((stableIns_perm le a t).mem_iff.mp hc) with rfl | hc'
      · rcases hto c b with h | h
        · rw [hle] at h
          exact absurd h (by simp)
        · exact h
      · exact hb c hc'

theorem pairwise_stableSort (le : GPoint → GPoint → Bool)
    (htr : ∀ x y z, le x y = true → le y z = true → le x z = true)
    (hto : ∀ x y, le x y = true ∨ le y x = true) :
    ∀ l : List GPoint, (stableSort le l).Pairwise (fun x y => le x y = true) := by
  intro l
  induction l with
  | nil => simp [stableSort]
  | cons a t ih =>
    rw [stableSort]
    exact pairwise_stableIns le htr hto a _ ih

theorem crossLE_trans (isY : Bool) :
    ∀ x y z, crossLE isY x y = true → crossLE isY y z = true →
      crossLE isY x z = true := by
  intro x y z h1 h2
  cases isY <;> simp only [crossLE, if_true, if_false, Bool.false_eq_true,
    decide_eq_true_eq] at h1 h2 ⊢ <;> exact le_trans h1 h2

theorem crossLE_total (isY : Bool) :
    ∀ x y, crossLE isY x y = true ∨ crossLE isY y x = true := by
  intro x y
  cases isY <;> simp only [crossLE, if_true, if_false, Bool.false_eq_true,
    decide_eq_true_eq] <;> exact le_total _ _

theorem sortPts_pairwise (isY : Bool) (pts : List GPoint) :
    (sortPts isY pts).Pairwise (fun a b => crossLE isY a b = true) :=
  pairwise_stableSort (crossLE isY) (crossLE_trans isY) (crossLE_total isY) pts

/-! ### Helper lemmas: the grouping fold -/

theorem mkGroup_key (dir : DrawDirection) (f : WFeature) :
    (mkGroup dir f).key = featureKey dir f := by
  cases dir <;> rfl

theorem mkGroup_points (dir : DrawDirection) (f : WFeature) :
    (mkGroup dir f).points = [pointOf f] := by
  cases dir <;> rfl

theorem flatPoints_insertFeature (dir : DrawDirection) (f : WFeature) :
    ∀ gs : List Group,
      List.Perm (flatPoints (insertFeature dir f gs)) (pointOf f :: flatPoints gs) := by
  intro gs
  induction gs with
  | nil =>
    simp [flatPoints, insertFeature, mkGroup_points]
  | cons g gs ih =>
    by_cases h : g.key = featureKey dir f
    · simp only [insertFeature, if_pos h, flatPoints, List.flatMap_cons]
      have hre : (g.points ++ [pointOf f]) ++ gs.flatMap (·.points) =
          g.points ++ pointOf f :: gs.flatMap (·.points) := by
        simp
      rw [hre]
      exact List.perm_middle
    · simp only [insertFeature, if_neg h, flatPoints, List.flatMap_cons]
      exact (List.Perm.append_left g.points ih).trans List.perm_middle

theorem flatPoints_foldl (dir : DrawDirection) :
    ∀ (fs : List WFeature) (gs : List Group),
      List.Perm (flatPoints (fs.foldl (fun gs f => insertFeature dir f gs) gs))
        (flatPoints gs ++ fs.map pointOf) := by
  intro fs
  induction fs with
  | nil =>
    intro gs
    simp
  | cons f fs ih =>
    intro gs
    simp only [List.foldl_cons, List.map_cons]
    refine (ih (insertFeature dir f gs)).trans ?_
    refine (((flatPoints_insertFeature dir f gs).append (List.Perm.refl _)).trans ?_)
    simpa using (@List.perm_middle _ (pointOf f) (flatPoints gs) (fs.map pointOf)).symm

theorem buildGroups_flatPoints (dir : DrawDirection) (fs : List WFeature) :
    List.Perm (flatPoints (buildGroups dir fs)) (fs.map pointOf) := by
  simpa [flatPoints, buildGroups] using flatPoints_foldl dir fs []

theorem sortedFlat_perm_flatPoints :
    ∀ gs : List Group, List.Perm (sortedFlat gs) (flatPoints gs) := by
  intro gs
  induction gs with
  | nil => simp [sortedFlat, flatPoints]
  | cons g gs ih =>
    simp only [sortedFlat, flatPoints, List.flatMap_cons]
    exact (sortPts_perm g.isYAxis g.points).append ih

theorem groupKeys_cons (g : Group) (gs : List Group) :
    groupKeys (g :: gs) = g.key :: groupKeys gs :=
  rfl

theorem groupKeys_insertFeature_of_mem (dir : DrawDirection) (f : WFeature) :
    ∀ gs : List Group, featureKey dir f ∈ groupKeys gs →
      groupKeys (insertFeature dir f gs) = groupKeys gs := by
  intro gs
  induction gs with
  | nil =>
    intro h
    exact absurd h (by simp [groupKeys])
  | cons g gs ih =>
    intro h
    rw [groupKeys_cons] at h
    by_cases hk : g.key = featureKey dir f
    · simp only [insertFeature, if_pos hk]
      rfl
    · have hmem : featureKey dir f ∈ groupKeys gs := by
        rcases List.mem_cons.mp h with h' | h'
        · exact absurd h'.symm hk
        · exact h'
      simp only [insertFeature, if_neg hk]
      rw [groupKeys_cons, groupKeys_cons, ih hmem]

theorem groupKeys_insertFeature_of_not_mem (dir : DrawDirection) (f : WFeature) :
    ∀ gs : List Group, featureKey dir f ∉ groupKeys gs →
      groupKeys (insertFeature dir f gs) = groupKeys gs ++ [featureKey dir f] := by
  intro gs
  induction gs with
  | nil =>
    intro _
    simp [insertFeature, groupKeys, mkGroup_key]
  | cons g gs ih =>
    intro h
    rw [groupKeys_cons] at h
    have hne : g.key ≠ featureKey dir f := fun he => h (List.mem_cons.mpr (.inl he.symm))
    have htail : featureKey dir f ∉ groupKeys gs := fun hm => h (List.mem_cons.mpr (.inr hm))
    simp only [insertFeature, if_neg hne]
    rw [groupKeys_cons, groupKeys_cons, ih htail, List.cons_append]

theorem nodup_groupKeys_insertFeature (dir : DrawDirection) (f : WFeature)
    (gs : List Group) (h : (groupKeys gs).Nodup) :
    (groupKeys (insertFeature dir f gs)).Nodup := by
  by_cases hm : featureKey dir f ∈ groupKeys gs
  · rw [groupKeys_insertFeature_of_mem dir f gs hm]
    exact h
  · rw [groupKeys_insertFeature_of_not_mem dir f gs hm]
    simp [List.nodup_append, h, hm]

theorem nodup_groupKeys_buildGroups (dir : DrawDirection) (fs : List WFeature) :
    (groupKeys (buildGroups dir fs)).Nodup := by
  have h : ∀ (fs : List WFeature) (gs : List Group), (groupKeys gs).Nodup →
      (groupKeys (fs.foldl (fun gs f => insertFeature dir f gs) gs)).Nodup := by
    intro fs
    induction fs with
    | nil =>
      intro gs hnd
      simpa using hnd
    | cons f fs ih =>
      intro gs hnd
      simpa [List.foldl_cons] using ih _ (nodup_groupKeys_insertFeature dir f gs hnd)
  simpa [buildGroups] using h fs [] (by simp [groupKeys])

theorem pointsOfKey_of_not_mem (k : GroupKey) :
    ∀ gs : List Group, k ∉ groupKeys gs → pointsOfKey k gs = [] := by
  intro gs
  induction gs with
  | nil =>
    intro _
    rfl
  | cons g gs ih =>
    intro h
    rw [groupKeys_cons] at h
    have hne : ¬g.key = k := fun he => h (List.mem_cons.mpr (.inl he.symm))
    have htail : k ∉ groupKeys gs := fun hm => h (List.mem_cons.mpr (.inr hm))
    simp only [pointsOfKey, List.filter_cons, decide_eq_true_eq, hne, if_false]
    exact ih htail

theorem pointsOfKey_cons (k : GroupKey) (g : Group) (gs : List Group) :
    pointsOfKey k (g :: gs) =
      (if g.key = k then g.points else []) ++ pointsOfKey k gs := by
  by_cases h : g.key = k <;>
    simp [pointsOfKey, List.filter_cons, h]

theorem pointsOfKey_insertFeature (dir : DrawDirection) (f : WFeature) (k : GroupKey) :
    ∀ gs : List Group, (groupKeys gs).Nodup →
      pointsOfKey k (insertFeature dir f gs) =
        pointsOfKey k gs ++ (if featureKey dir f = k then [pointOf f] else []) := by
  intro gs
  induction gs with
  | nil =>
    intro _
    by_cases h : featureKey dir f = k <;>
      simp [insertFeature, pointsOfKey, List.filter_cons, mkGroup_key, mkGroup_points, h]
  | cons g gs ih =>
    intro hnd
    rw [groupKeys_cons] at hnd
    obtain ⟨hgk, hnd'⟩ := List.nodup_cons.mp hnd
    by_cases h : g.key = featureKey dir f
    · simp only [insertFeature, if_pos h]
      by_cases hk : g.key = k
      · have hfk : featureKey dir f = k := h ▸ hk
        have hz : pointsOfKey k gs = [] := pointsOfKey_of_not_mem k gs (hk ▸ hgk)
        rw [pointsOfKey_cons, pointsOfKey_cons]
        simp [hk, hfk, hz]
      · have hfk : ¬featureKey dir f = k := fun he => hk (h.symm ▸ he)
        rw [pointsOfKey_cons, pointsOfKey_cons]
        simp [hk, hfk]
    · simp only [insertFeature, if_neg h]
      rw [pointsOfKey_cons, pointsOfKey_cons, ih hnd', List.append_assoc]

theorem pointsOfKey_foldl (dir : DrawDirection) (k : GroupKey) :
    ∀ (fs : List WFeature) (gs : List Group), (groupKeys gs).Nodup →
      pointsOfKey k (fs.foldl (fun gs f => insertFeature dir f gs) gs) =
        pointsOfKey k gs ++
          ((fs.filter (fun f => decide (featureKey dir f = k))).map pointOf) := by
  intro fs
  induction fs with
  | nil =>
    intro gs _
    simp
  | cons f fs ih =>
    intro gs hnd
    simp only [List.foldl_cons]
    rw [ih _ (nodup_groupKeys_insertFeature dir f gs hnd),
      pointsOfKey_insertFeature dir f k gs hnd]
    by_cases h : featureKey dir f = k <;>
      simp [List.filter_cons, h, List.append_assoc]

theorem pointsOfKey_buildGroups (dir : DrawDirection) (fs : List WFeature) (k : GroupKey) :
    pointsOfKey k (buildGroups dir fs) =
      (fs.filter (fun f => decide (featureKey dir f = k))).map pointOf := by
  have h := pointsOfKey_foldl dir k fs [] (by simp [groupKeys])
  simpa [buildGroups, pointsOfKey] using h

theorem find?_key_of_mem (k : GroupKey) :
    ∀ gs : List Group, (groupKeys gs).Nodup → ∀ g : Group, g ∈ gs → g.key = k →
      gs.find? (fun g' => decide (g'.key = k)) = some g := by
  intro gs
  induction gs with
  | nil =>
    intro _ g hg
    exact absurd hg (List.not_mem_nil g)
  | cons g' gs ih =>
    intro hnd g hg hk
    rw [groupKeys_cons] at hnd
    obtain ⟨hg'k, hnd'⟩ := List.nodup_cons.mp hnd
    by_cases h : g'.key = k
    · have hgg : g = g' := by
        rcases List.mem_cons.mp hg with rfl | hmem
        · rfl
        · exfalso
          apply hg'k
          rw [h, ← hk]
          exact List.mem_map_of_mem (·.key) hmem
      rw [hgg]
      simp [List.find?_cons, h]
    · have hmem : g ∈ gs := by
        rcases List.mem_cons.mp hg with rfl | hmem
        · exact absurd hk h
        · exact hmem
      simp only [List.find?_cons, decide_eq_true_eq, h, if_false]
      simpa [h] using ih hnd' g hmem hk

theorem groupFor_spec (dir : DrawDirection) (fs : List WFeature) (f : WFeature)
    (hf : f ∈ fs) :
    ∃ g : Group, groupFor dir fs f = some g ∧ g.key = featureKey dir f ∧
      pointOf f ∈ g.points := by
  have hpt : pointOf f ∈ pointsOfKey (featureKey dir f) (buildGroups dir fs) := by
    rw [pointsOfKey_buildGroups]
    exact List.mem_map_of_mem _ (List.mem_filter.mpr ⟨hf, by simp⟩)
  rw [pointsOfKey] at hpt
  obtain ⟨g, hgf, hgp⟩ := List.mem_flatMap.mp hpt
  have hgmem : g ∈ buildGroups dir fs := (List.mem_filter.mp hgf).1
  have hgkey : g.key = featureKey dir f := by
    simpa using (List.mem_filter.mp hgf).2
  exact ⟨g,
    find?_key_of_mem (featureKey dir f) _ (nodup_groupKeys_buildGroups dir fs) g hgmem hgkey,
    hgkey, hgp⟩

theorem featureKey_eq_iff_keyAgree (dir : DrawDirection) (f1 f2 : WFeature) :
    featureKey dir f1 = featureKey dir f2 ↔ keyAgree dir f1 f2 := by
  cases dir <;> [
    (rcases hx1 : f1.grid_x with _ | a <;> rcases hx2 : f2.grid_x with _ | b <;>
      simp [featureKey, keyAgree, hx1, hx2]);
    (rcases hy1 : f1.grid_y with _ | a <;> rcases hy2 : f2.grid_y with _ | b <;>
      simp [featureKey, keyAgree, hy1, hy2])]

/-! ### Helper lemmas: raw feature extraction -/

theorem toWFeature_eq_none_iff (f : RawFeature) :
    toWFeature f = none ↔ f.geometry = none := by
  rcases hg : f.geometry with _ | c <;> simp [toWFeature, hg]

theorem extractAll_eq_none_of_bad :
    ∀ fs : List RawFeature, (∃ f ∈ fs, f.geometry = none) →
      extractAll fs = none := by
  intro fs
  induction fs with
  | nil =>
    rintro ⟨f, hf, _⟩
    exact absurd hf (List.not_mem_nil f)
  | cons f fs ih =>
    rintro ⟨f', hf', hgeo⟩
    rcases List.mem_cons.mp hf' with rfl | hmem
    · rw [extractAll, (toWFeature_eq_none_iff f').mpr hgeo]
    · rw [extractAll, ih ⟨f', hmem, hgeo⟩]
      rcases toWFeature f with _ | w <;> rfl

/-! ### Helper lemmas: line records -/

theorem mkLineA_points (g : Group) :
    (mkLineA g).points = sortPts g.isYAxis g.points :=
  rfl

theorem mkLineA_isYAxis (g : Group) :
    (mkLineA g).isYAxis = g.isYAxis :=
  rfl

theorem mkLineB_points (g : Group) :
    (mkLineB g).points = sortPts g.isYAxis g.points :=
  rfl

theorem mkLineB_isYAxis (g : Group) :
    (mkLineB g).isYAxis = g.isYAxis :=
  rfl

theorem mkLineB_coord (g : Group) :
    (mkLineB g).coord = g.coord :=
  rfl

theorem mkLineB_closedPoints (g : Group) :
    (mkLineB g).closedPoints = closedOf g.isYAxis g.coord (sortPts g.isYAxis g.points) :=
  rfl

theorem mapLineA_flatMap (gs : List Group) :
    (gs.map mkLineA).flatMap (·.points) = sortedFlat gs := by
  induction gs with
  | nil => rfl
  | cons g gs ih =>
    simp only [sortedFlat, List.map_cons, List.flatMap_cons] at ih ⊢
    rw [ih, mkLineA_points]

/-! ### The claims -/

/-- C1, counterexample: the claim says a vertex whose projection is `null`
is omitted from the drawn path and never rendered as a screen coordinate.
On a one-vertex polyline whose projection is `null` everywhere, the drawn
path is `[(0, 0)]` — the vertex is not omitted but rendered at the screen
origin (the accessors return `0` instead of skipping; `d3.line` has no
`defined` guard here). -/
theorem c1_counterexample :
    pathA projNone DrawDirection.y (fun v => v) [⟨0, 0, 1⟩] = [(0, 0)] ∧
      pathA projNone DrawDirection.y (fun v => v) [⟨0, 0, 1⟩] ≠ [] :=
  ⟨rfl, by simp [pathA]⟩

/-- C1, amended: for every vertex of a group's polyline whose forward
projection returns `null`, the draw pass does not throw and does not omit
the vertex: the path keeps one sample per vertex, and such a vertex is
rendered at screen coordinate `(0, 0)` (with no height offset applied),
in the line generators of both variants. -/
theorem c1_null_vertex_rendered (proj : Proj) (dir : DrawDirection) (hs : ℚ → ℚ)
    (pts : List GPoint) :
    (pathA proj dir hs pts).length = pts.length ∧
      ∀ d ∈ pts, proj (d.lon, d.lat) = none →
        xAccA proj dir hs d = 0 ∧ yAccA proj dir hs d = 0 ∧
        ((0 : ℚ), (0 : ℚ)) ∈ pathA proj dir hs pts ∧
        xAccBdraw proj dir hs d = 0 ∧ yAccBdraw proj dir hs d = 0 := by
  refine ⟨by simp [pathA], ?_⟩
  intro d hd hdn
  have hx : xAccA proj dir hs d = 0 := by simp [xAccA, hdn]
  have hy : yAccA proj dir hs d = 0 := by simp [yAccA, hdn]
  refine ⟨hx, hy, ?_, by simp [xAccBdraw, hdn], by simp [yAccBdraw, hdn]⟩
  rw [show ((0 : ℚ), (0 : ℚ)) = (xAccA proj dir hs d, yAccA proj dir hs d) by rw [hx, hy]]
  exact List.mem_map_of_mem _ hd

/-- C1, witness: the amended statement instantiated on the one-vertex
polyline projected to `null`. -/
theorem c1_witness :
    ((⟨0, 0, 1⟩ : GPoint) ∈ [(⟨0, 0, 1⟩ : GPoint)] ∧
      projNone ((0 : ℚ), (0 : ℚ)) = none) ∧
      (xAccA projNone DrawDirection.y (fun v => v) ⟨0, 0, 1⟩ = 0 ∧
        yAccA projNone DrawDirection.y (fun v => v) ⟨0, 0, 1⟩ = 0 ∧
        ((0 : ℚ), (0 : ℚ)) ∈ pathA projNone DrawDirection.y (fun v => v) [⟨0, 0, 1⟩] ∧
        xAccBdraw projNone DrawDirection.y (fun v => v) ⟨0, 0, 1⟩ = 0 ∧
        yAccBdraw projNone DrawDirection.y (fun v => v) ⟨0, 0, 1⟩ = 0) :=
  ⟨⟨List.mem_singleton_self _, rfl⟩,
    (c1_null_vertex_rendered projNone DrawDirection.y (fun v => v) [⟨0, 0, 1⟩]).2
      ⟨0, 0, 1⟩ (List.mem_singleton_self _) rfl⟩

/-- C3, counterexample: with all features carrying the same value (here
`min = max = 5`) and `maxHeightOffset = 60`, the height scale returns 30
for the input 5, not 0 — d3's linear scale maps a degenerate domain to the
midpoint of the range, so the claim "the height scale returns 0 for every
input" fails. -/
theorem c3_counterexample :
    heightScale 5 5 60 5 = 30 ∧ ¬heightScale 5 5 60 5 = 0 := by
  constructor <;>
    norm_num [heightScale, d3ScaleLinear, d3Normalize, d3InterpolateNumber]

/-- C3, amended: when the global minimum equals the global maximum, the
height scale returns the constant `maxHeightOffset / 2` (the midpoint of
the range) for every input — never NaN and never a division by zero, the
degenerate domain is handled by the constant-1/2 branch of d3's
`normalize` — so every point receives the same height offset
`maxHeightOffset / 2` (which is nonzero whenever the container height is). -/
theorem c3_degenerate_heightScale (v m x : ℚ) :
    heightScale v v m x = m / 2 := by
  rw [heightScale, d3ScaleLinear, if_neg (lt_irrefl v), d3Normalize,
    if_neg (by simp), d3InterpolateNumber]
  ring

/-- C4, counterexample: with the identity-like projection, direction `'x'`
and a unit height scale, variant B's full draw renders the vertex
`(0, 0, value 1)` at `(-1, 0)` (x shifted left by the height offset) while
the reflow pass renders it at `(0, -1)` (x untouched, y shifted up), so
reflow does not recompute the same per-vertex screen coordinates as a full
draw. -/
theorem c4_counterexample :
    (xAccBdraw projIdent DrawDirection.x (fun v => v) ⟨0, 0, 1⟩,
        yAccBdraw projIdent DrawDirection.x (fun v => v) ⟨0, 0, 1⟩) = (-1, 0) ∧
      (xAccBreflow projIdent (fun v => v) ⟨0, 0, 1⟩,
        yAccBreflow projIdent (fun v => v) ⟨0, 0, 1⟩) = (0, -1) ∧
      (xAccBdraw projIdent DrawDirection.x (fun v => v) ⟨0, 0, 1⟩,
          yAccBdraw projIdent DrawDirection.x (fun v => v) ⟨0, 0, 1⟩) ≠
        (xAccBreflow projIdent (fun v => v) ⟨0, 0, 1⟩,
          yAccBreflow projIdent (fun v => v) ⟨0, 0, 1⟩) := by
  refine ⟨?_, ?_, ?_⟩ <;>
    (norm_num [xAccBdraw, yAccBdraw, xAccBreflow, yAccBreflow, projIdent];
      try decide)

/-- C4, amended: variant B's reflow pass is a function of the already-built
lines only (it cannot re-run feature grouping), and in draw direction `'y'`
it recomputes exactly the per-vertex screen coordinates — including the
value-dependent height offset along the y screen axis — that the full draw
pass computes over the same built lines; in direction `'x'` the two passes
differ (see the counterexample: draw offsets x, reflow offsets y). -/
theorem c4_reflow_matches_draw_on_y (proj : Proj) (hs : ℚ → ℚ) (fs : List WFeature) :
    reflowPathsB proj hs (lineDataB DrawDirection.y fs) =
      drawPathsB proj DrawDirection.y hs (lineDataB DrawDirection.y fs) := by
  rw [reflowPathsB, drawPathsB]
  refine List.map_congr_left ?_
  intro l _
  refine List.map_congr_left ?_
  intro d _
  rcases hp : proj (d.lon, d.lat) with _ | c <;>
    simp [xAccBreflow, xAccBdraw, yAccBreflow, yAccBdraw, hp]

/-- C8: recomputing the projection state for a fixed container size is
idempotent: the scale is `min(width - 64, height - 64) / 0.08`, computed
only from the current container dimensions (never from the previous
scale), the translate is `(width / 2, height / 2)`, and hence any
projection function of the state yields identical screen coordinates after
one and after two resize runs. -/
theorem c8_invalidateSize_idempotent (width height : ℚ) (st : ProjectionState) :
    invalidateSize width height (invalidateSize width height st) =
        invalidateSize width height st ∧
      (invalidateSize width height st).scale =
        min (width - 64) (height - 64) / (8 / 100) ∧
      (invalidateSize width height st).translateX = width / 2 ∧
      (invalidateSize width height st).translateY = height / 2 ∧
      (invalidateSize width height st).rotateLon = st.rotateLon ∧
      (invalidateSize width height st).rotateLat = st.rotateLat ∧
      ∀ (interp : ProjectionState → ℚ × ℚ → Option (ℚ × ℚ)) (p : ℚ × ℚ),
        interp (invalidateSize width height (invalidateSize width height st)) p =
          interp (invalidateSize width height st) p :=
  ⟨rfl, rfl, rfl, rfl, rfl, rfl, fun _ _ => rfl⟩

/-- C2, counterexample: the claim says concatenating the point sequences of
all drawn groups gives back exactly the loaded feature set.  For the
one-feature collection sitting on the odd grid row 1, variant A's drawn
line data is empty (the draw filter drops groups with an odd grid
coordinate), so the drawn concatenation loses the feature. -/
theorem c2_counterexample :
    ¬List.Perm ((lineDataA DrawDirection.y oddRowFs).flatMap (·.points))
      (oddRowFs.map pointOf) :=
  fun h => absurd h.length_eq (by decide)

/-- C2, amended: grouping then concatenating the point sequences of all
BUILT groups yields exactly the original feature multiset — every loaded
feature appears exactly once, no duplication, no loss; the DRAWN groups of
variant A additionally exclude groups with an odd grid coordinate, so the
drawn concatenation equals the original feature set exactly when every
built group survives that even-grid filter. -/
theorem c2_flatten_groups_perm (dir : DrawDirection) (fs : List WFeature) :
    List.Perm (sortedFlat (buildGroups dir fs)) (fs.map pointOf) ∧
      ((∀ g ∈ buildGroups dir fs, evenGroup g = true) →
        List.Perm ((lineDataA dir fs).flatMap (·.points)) (fs.map pointOf)) := by
  constructor
  · exact (sortedFlat_perm_flatPoints _).trans (buildGroups_flatPoints dir fs)
  · intro hall
    have hfe : (buildGroups dir fs).filter evenGroup = buildGroups dir fs :=
      List.filter_eq_self.mpr hall
    rw [lineDataA, hfe, mapLineA_flatMap]
    exact (sortedFlat_perm_flatPoints _).trans (buildGroups_flatPoints dir fs)

/-- C2, witness: on the spec's 4-point scenario every group sits on the even
grid row 0, so the drawn concatenation is a permutation of the loaded
features. -/
theorem c2_witness :
    (∀ g ∈ buildGroups DrawDirection.y scenarioFs, evenGroup g = true) ∧
      List.Perm ((lineDataA DrawDirection.y scenarioFs).flatMap (·.points))
        (scenarioFs.map pointOf) :=
  ⟨by decide, (c2_flatten_groups_perm DrawDirection.y scenarioFs).2 (by decide)⟩

/-- C5: for any two features of the collection, each lands in the unique
built group carrying its key, and the two land in the same group exactly
when their keys agree — equal grid indices (exact integer match) when both
carry one for the grouping axis, equal coordinates rounded to 2 decimals
(latitude in `'y'` mode, longitude in `'x'` mode) when neither does, and
never when only one carries a grid index. -/
theorem c5_grouping_key (dir : DrawDirection) (fs : List WFeature) (f1 f2 : WFeature)
    (h1 : f1 ∈ fs) (h2 : f2 ∈ fs) :
    ∃ g1 g2 : Group,
      groupFor dir fs f1 = some g1 ∧ groupFor dir fs f2 = some g2 ∧
      pointOf f1 ∈ g1.points ∧ pointOf f2 ∈ g2.points ∧
      (g1 = g2 ↔ keyAgree dir f1 f2) := by
  obtain ⟨g1, hf1, hk1, hp1⟩ := groupFor_spec dir fs f1 h1
  obtain ⟨g2, hf2, hk2, hp2⟩ := groupFor_spec dir fs f2 h2
  refine ⟨g1, g2, hf1, hf2, hp1, hp2, ?_⟩
  rw [← featureKey_eq_iff_keyAgree]
  constructor
  · intro he
    rw [← hk1, ← hk2, he]
  · intro he
    have heq : groupFor dir fs f1 = groupFor dir fs f2 := by
      rw [groupFor, groupFor, he]
    rw [hf1, hf2] at heq
    exact Option.some.inj heq

/-- C5, witness: two features on the same grid row 0 land in the same
group. -/
theorem c5_witness :
    ((⟨10, 5, 1, none, some 0⟩ : WFeature) ∈ twoRowFs ∧
      (⟨20, 5, 2, none, some 0⟩ : WFeature) ∈ twoRowFs) ∧
      ∃ g1 g2 : Group,
        groupFor DrawDirection.y twoRowFs ⟨10, 5, 1, none, some 0⟩ = some g1 ∧
        groupFor DrawDirection.y twoRowFs ⟨20, 5, 2, none, some 0⟩ = some g2 ∧
        pointOf ⟨10, 5, 1, none, some 0⟩ ∈ g1.points ∧
        pointOf ⟨20, 5, 2, none, some 0⟩ ∈ g2.points ∧
        (g1 = g2 ↔ keyAgree DrawDirection.y ⟨10, 5, 1, none, some 0⟩ ⟨20, 5, 2, none, some 0⟩) :=
  ⟨⟨by decide, by decide⟩,
    c5_grouping_key DrawDirection.y twoRowFs _ _ (by decide) (by decide)⟩

/-- C6: every drawn group's point sequence is sorted ascending by the
cross-axis coordinate (longitude in `'y'` row mode, latitude in `'x'`
column mode); and on the spec's scenario — 4 points at `grid_y = 0` with
longitudes 10, 20, 30, 40 and values 1, 2, 3, 4 — grouping by row yields
exactly one group whose points are sorted by longitude ascending, with
`averageValue = 5/2` and `maxValue = 4`. -/
theorem c6_groups_sorted_scenario :
    (∀ (dir : DrawDirection) (fs : List WFeature), ∀ l ∈ lineDataA dir fs,
        l.points.Pairwise (fun a b =>
          if l.isYAxis then a.lon ≤ b.lon else a.lat ≤ b.lat)) ∧
      (lineDataA DrawDirection.y scenarioFs).map
          (fun l => (l.points, l.avgValue, l.maxValue)) =
        [([(⟨10, 0, 1⟩ : GPoint), ⟨20, 0, 2⟩, ⟨30, 0, 3⟩, ⟨40, 0, 4⟩], 5 / 2, 4)] := by
  constructor
  · intro dir fs l hl
    obtain ⟨g, _, rfl⟩ := List.mem_map.mp hl
    have hp := sortPts_pairwise g.isYAxis g.points
    rw [mkLineA_points] at *
    rw [mkLineA_isYAxis]
    refine hp.imp ?_
    intro a b hab
    cases hy : g.isYAxis <;> rw [hy] at hab <;>
      simpa [crossLE] using hab
  · have h1 : lineDataA DrawDirection.y scenarioFs = [mkLineA scenarioGroup] := rfl
    have hsp : sortPts true
        [(⟨10, 0, 1⟩ : GPoint), ⟨20, 0, 2⟩, ⟨30, 0, 3⟩, ⟨40, 0, 4⟩] =
        [(⟨10, 0, 1⟩ : GPoint), ⟨20, 0, 2⟩, ⟨30, 0, 3⟩, ⟨40, 0, 4⟩] := by
      decide
    rw [h1]
    simp only [List.map_cons, List.map_nil, mkLineA, scenarioGroup, hsp]
    norm_num [listSum, jsMaxList, max_def]

/-- C6, witness: the sortedness statement instantiated on the scenario's
single drawn group. -/
theorem c6_witness :
    mkLineA scenarioGroup ∈ lineDataA DrawDirection.y scenarioFs ∧
      (mkLineA scenarioGroup).points.Pairwise (fun a b =>
        if (mkLineA scenarioGroup).isYAxis then a.lon ≤ b.lon else a.lat ≤ b.lat) := by
  have hmem : mkLineA scenarioGroup ∈ lineDataA DrawDirection.y scenarioFs := by
    rw [show lineDataA DrawDirection.y scenarioFs = [mkLineA scenarioGroup] from rfl]
    exact List.mem_singleton_self _
  exact ⟨hmem, (c6_groups_sorted_scenario).1 DrawDirection.y scenarioFs _ hmem⟩

/-- C7: in variant B, every non-empty drawn group gets exactly two synthetic
baseline endpoints, one before and one after the real points; both carry
value 0, sit at the group's representative coordinate on the grouping axis,
and are offset along the cross axis from the first/last real point by the
mean spacing `(last - first) / (n - 1)` between consecutive real points
when the group has at least two points, and by the fixed fallback step
`0.01` when it has fewer than two. -/
theorem c7_baseline_endpoints (dir : DrawDirection) (fs : List WFeature) (l : LineB)
    (hl : l ∈ lineDataB dir fs) (first last : GPoint)
    (hfirst : l.points.head? = some first) (hlast : l.points.getLast? = some last) :
    ∃ step : ℚ,
      step = (if 1 < l.points.length then
          (if l.isYAxis then last.lon - first.lon else last.lat - first.lat) /
            ((l.points.length : ℚ) - 1)
        else 1 / 100) ∧
      l.closedPoints =
        (if l.isYAxis then (⟨first.lon - step, l.coord, 0⟩ : GPoint)
          else ⟨l.coord, first.lat - step, 0⟩) ::
          (l.points ++
            [if l.isYAxis then (⟨last.lon + step, l.coord, 0⟩ : GPoint)
              else ⟨l.coord, last.lat + step, 0⟩]) := by
  obtain ⟨g, _, rfl⟩ := List.mem_map.mp hl
  refine ⟨_, rfl, ?_⟩
  rw [mkLineB_points] at hfirst hlast
  rw [mkLineB_closedPoints, mkLineB_points, mkLineB_isYAxis, mkLineB_coord]
  simp only [closedOf]
  rw [hfirst, hlast]
  cases hy : g.isYAxis <;> simp [hy]

/-- C7, witness: a single-point group uses the fallback step `0.01`. -/
theorem c7_witness :
    (mkLineB (mkGroup DrawDirection.y singleF) ∈ lineDataB DrawDirection.y [singleF] ∧
      (mkLineB (mkGroup DrawDirection.y singleF)).points.head? =
        some (⟨10, 0, 7⟩ : GPoint) ∧
      (mkLineB (mkGroup DrawDirection.y singleF)).points.getLast? =
        some (⟨10, 0, 7⟩ : GPoint)) ∧
      ∃ step : ℚ,
        step = (if 1 < (mkLineB (mkGroup DrawDirection.y singleF)).points.length then
            (if (mkLineB (mkGroup DrawDirection.y singleF)).isYAxis then
              (⟨10, 0, 7⟩ : GPoint).lon - (⟨10, 0, 7⟩ : GPoint).lon
            else (⟨10, 0, 7⟩ : GPoint).lat - (⟨10, 0, 7⟩ : GPoint).lat) /
              (((mkLineB (mkGroup DrawDirection.y singleF)).points.length : ℚ) - 1)
          else 1 / 100) ∧
        (mkLineB (mkGroup DrawDirection.y singleF)).closedPoints =
          (if (mkLineB (mkGroup DrawDirection.y singleF)).isYAxis then
            (⟨(⟨10, 0, 7⟩ : GPoint).lon - step,
              (mkLineB (mkGroup DrawDirection.y singleF)).coord, 0⟩ : GPoint)
          else ⟨(mkLineB (mkGroup DrawDirection.y singleF)).coord,
            (⟨10, 0, 7⟩ : GPoint).lat - step, 0⟩) ::
            ((mkLineB (mkGroup DrawDirection.y singleF)).points ++
              [if (mkLineB (mkGroup DrawDirection.y singleF)).isYAxis then
                (⟨(⟨10, 0, 7⟩ : GPoint).lon + step,
                  (mkLineB (mkGroup DrawDirection.y singleF)).coord, 0⟩ : GPoint)
              else ⟨(mkLineB (mkGroup DrawDirection.y singleF)).coord,
                (⟨10, 0, 7⟩ : GPoint).lat + step, 0⟩]) := by
  have hmem : mkLineB (mkGroup DrawDirection.y singleF) ∈
      lineDataB DrawDirection.y [singleF] := by
    rw [show lineDataB DrawDirection.y [singleF] =
      [mkLineB (mkGroup DrawDirection.y singleF)] from rfl]
    exact List.mem_singleton_self _
  exact ⟨⟨hmem, rfl, rfl⟩,
    c7_baseline_endpoints DrawDirection.y [singleF] _ hmem ⟨10, 0, 7⟩ ⟨10, 0, 7⟩ rfl rfl⟩

/-- C9, counterexample: the claim says a malformed feature is skipped
individually and never aborts the whole draw pass.  With one well-formed
feature and one feature whose geometry is missing, variant A's draw pass
aborts entirely (the `TypeError` thrown by `feature.geometry.coordinates`
is caught by the surrounding `catch`, drawing nothing), while the
well-formed feature alone would have been drawn. -/
theorem c9_counterexample :
    drawPassA DrawDirection.y [rawGood, rawBad] = none ∧
      drawPassA DrawDirection.y [rawGood] ≠ none := by
  constructor
  · rfl
  · rw [show drawPassA DrawDirection.y [rawGood] =
      some (lineDataA DrawDirection.y [⟨10, 0, 5, none, some 0⟩]) from rfl]
    simp

/-- C9, amended: a feature with a missing geometry makes the whole draw
pass abort (nothing is drawn, no exception escapes — `none`), rather than
being skipped individually; a feature with a missing value is not skipped
either: it is kept with its value defaulted to 0; and when every feature is
well-formed the non-empty pass draws the grouped line data of all of
them. -/
theorem c9_malformed_feature_handling (dir : DrawDirection) (fs : List RawFeature) :
    ((∃ f ∈ fs, f.geometry = none) → drawPassA dir fs = none) ∧
      (∀ f : RawFeature, ∀ c : ℚ × ℚ, f.geometry = some c → f.value = none →
        toWFeature f = some ⟨c.1, c.2, 0, f.grid_x, f.grid_y⟩) ∧
      (∀ ws : List WFeature, extractAll fs = some ws → fs.isEmpty = false →
        drawPassA dir fs = some (lineDataA dir ws)) := by
  refine ⟨?_, ?_, ?_⟩
  · intro hex
    have hnone := extractAll_eq_none_of_bad fs hex
    have hne : fs.isEmpty = false := by
      obtain ⟨f, hf, _⟩ := hex
      cases fs with
      | nil => exact absurd hf (List.not_mem_nil f)
      | cons a l => rfl
    rw [drawPassA, hne, hnone]
    rfl
  · intro f c hg hv
    simp [toWFeature, hg, hv]
  · intro ws hws hne
    rw [drawPassA, hne, hws]
    rfl

/-- C9, witness: the amended statement instantiated on concrete feature
lists. -/
theorem c9_witness :
    ((∃ f ∈ [rawGood, rawBad], f.geometry = none) ∧
      drawPassA DrawDirection.y [rawGood, rawBad] = none) ∧
      (rawNoValue.geometry = some ((10 : ℚ), (0 : ℚ)) ∧ rawNoValue.value = none ∧
        toWFeature rawNoValue = some ⟨10, 0, 0, none, some 0⟩) ∧
      (extractAll [rawGood] = some [⟨10, 0, 5, none, some 0⟩] ∧
        [rawGood].isEmpty = false ∧
        drawPassA DrawDirection.y [rawGood] =
          some (lineDataA DrawDirection.y [⟨10, 0, 5, none, some 0⟩])) := by
  have hex : ∃ f ∈ [rawGood, rawBad], f.geometry = none :=
    ⟨rawBad, List.mem_cons.mpr (.inr (List.mem_singleton_self _)), rfl⟩
  refine ⟨⟨hex, (c9_malformed_feature_handling DrawDirection.y [rawGood, rawBad]).1 hex⟩,
    ⟨rfl, rfl,
      (c9_malformed_feature_handling DrawDirection.y [rawNoValue]).2.1 rawNoValue (10, 0)
        rfl rfl⟩,
    ⟨rfl, rfl,
      (c9_malformed_feature_handling DrawDirection.y [rawGood]).2.2 _ rfl rfl⟩⟩

/-- C10: `isCountryVisited` returns `false` for a missing or empty name;
otherwise it returns `true` exactly when the trimmed name equals some
visited-country entry, contains one as a substring, or is itself a
substring of one — in particular the partial name "Korea" is reported as
visited because "North Korea" contains it. -/
theorem c10_isCountryVisited_spec :
    isCountryVisited none = false ∧
      isCountryVisited (some "") = false ∧
      isCountryVisited (some "Korea") = true ∧
      ∀ s : String, s ≠ "" →
        (isCountryVisited (some s) = true ↔
          ∃ v ∈ visitedCountries,
            jsTrim s.toList = v.toList ∨
            containsSub (jsTrim s.toList) v.toList = true ∨
            containsSub v.toList (jsTrim s.toList) = true) := by
  refine ⟨rfl, rfl, by decide, ?_⟩
  intro s hs
  have hz : s.toList ≠ [] := by
    intro h
    apply hs
    apply String.ext
    exact h
  have hne : s.toList.isEmpty = false := by
    cases h : s.toList with
    | nil => exact absurd h hz
    | cons a l => rfl
  rw [isCountryVisited, hne]
  simp only [Bool.false_eq_true, if_false, List.any_eq_true, Bool.or_eq_true,
    beq_iff_eq, or_assoc]

/-- C10, witness: the characterization instantiated at the name "Korea". -/
theorem c10_witness :
    ("Korea" : String) ≠ "" ∧
      (isCountryVisited (some "Korea") = true ↔
        ∃ v ∈ visitedCountries,
          jsTrim ("Korea" : String).toList = v.toList ∨
          containsSub (jsTrim ("Korea" : String).toList) v.toList = true ∨
          containsSub v.toList (jsTrim ("Korea" : String).toList) = true) :=
  ⟨by decide, c10_isCountryVisited_spec.2.2.2 "Korea" (by decide)⟩

end MapRaster

